import Mathlib

/-!
Verification development for the PhotoDisarm background preloading cache,
decoder and navigation state machine.

The definitions below are shallow embeddings of the Python sources:
  - photodisarm/processing/background_processor.py (BackgroundProcessor)
  - photodisarm/processing/image_processor.py (process_image, resize_image_to_fit)
  - photodisarm/processing/corrupt.py (CorruptDetector.test_image_integrity)
  - photodisarm/core/image_viewer.py (ImageViewer handlers)
  - canvas.py (resize_image)

Decoded pixel buffers are abstracted to an opaque payload (a natural
number): no claim below depends on pixel contents, only on which buffer
is stored or returned where.  The Python dict self.processed_images is
modelled as a function String -> Option Buffer (none of the verified
properties depends on dict iteration order); queue.Queue is a list with
its front at the head.  The decode operation (process_image as seen from
the cache layer) is passed in as an oracle of type String -> Option
Buffer, with none standing for both the failure marker and a raised
exception: the two are indistinguishable to the callers modelled here,
which catch the exception and treat it like a failure.
-/

/-- Opaque decoded pixel buffer payload. -/
abbrev Buffer := Nat

/-- The in-memory map self.processed_images. -/
abbrev ImageMap := String → Option Buffer

/-- Python dict assignment self.processed_images[path] = img. -/
def mapInsert (m : ImageMap) (k : String) (v : Buffer) : ImageMap :=
  Function.update m k (some v)

/-- State of BackgroundProcessor (background_processor.py lines 24-42):
the fields touched by start/stop/get_image/_process_images.  The fields
max_width/max_height/use_cache/quality only parameterize the decode
oracle and are not carried separately. -/
structure BPState where
  currentChunk : List String
  nextChunk : List String
  processedImages : ImageMap
  imageQueue : List (String × Buffer)
  maxQueueSize : Nat

/-- Next-chunk computation in BackgroundProcessor.start (lines 75-81):
if all_paths is provided and long enough, the slice
all_paths[(idx+1)*chunk : min((idx+2)*chunk, len)] becomes the next
chunk, else the next chunk is empty. -/
def nextChunkOf (allPaths : Option (List String)) (chunkSize currentChunkIdx : Nat) :
    List String :=
  match allPaths with
  | none => []
  | some ap =>
    if ap.length > (currentChunkIdx + 1) * chunkSize then
      (ap.drop ((currentChunkIdx + 1) * chunkSize)).take chunkSize
    else []

/-- BackgroundProcessor.start (lines 44-101): stop the previous worker,
install the new current chunk, compute the next chunk, filter the
in-memory map down to paths of current or next chunk, and clear the
ready queue.  Worker spawning and the other configuration fields have
no effect on the state modelled here. -/
def bpStart (s : BPState) (imagePaths : List String) (allPaths : Option (List String))
    (chunkSize currentChunkIdx : Nat) : BPState :=
  let next := nextChunkOf allPaths chunkSize currentChunkIdx
  { s with
    currentChunk := imagePaths
    nextChunk := next
    processedImages := fun p =>
      if p ∈ imagePaths ∨ p ∈ next then s.processedImages p else none
    imageQueue := [] }

/-- ASCII lowercasing of one character, as Python str.lower does on the
characters appearing in the extension comparisons below. -/
def lowerChar (c : Char) : Char :=
  if 'A' ≤ c ∧ c ≤ 'Z' then Char.ofNat (c.toNat + 32) else c

/-- img_path.lower().endswith('.nef'), computed structurally over the
character list. -/
def isNef (p : String) : Bool := ".nef".toList.isSuffixOf (p.toList.map lowerChar)

/-- One iteration of the worker loop body in
BackgroundProcessor._process_images (lines 186-265).  Returns the new
state together with the path a decode was attempted on this iteration
(none when the iteration decoded nothing: NEF-priority condition
failed, or both chunks are done and the worker idle-sleeps).  A decode
returning none covers both process_image's failure marker and a raised
exception: in either case the except/None-guard stores nothing. -/
def workerStep (decode : String → Option Buffer) (s : BPState) :
    BPState × Option String :=
  let unprocessedCurrent := s.currentChunk.filter (fun p => (s.processedImages p).isNone)
  match unprocessedCurrent with
  | imgPath :: _ =>
    -- "Prioritize NEF files": decode only if the head is NEF or no NEF remains
    if isNef imgPath || (unprocessedCurrent.filter (fun p => isNef p)).length = 0 then
      if (s.processedImages imgPath).isNone then
        match decode imgPath with
        | some imgData =>
          -- store in the in-memory cache, and enqueue if there is room
          let q' := if s.imageQueue.length < s.maxQueueSize
                    then s.imageQueue ++ [(imgPath, imgData)] else s.imageQueue
          ({ s with processedImages := mapInsert s.processedImages imgPath imgData
                    imageQueue := q' }, some imgPath)
        | none => (s, some imgPath)   -- failure/exception: nothing is stored
      else (s, none)
    else (s, none)
  | [] =>
    if s.nextChunk.isEmpty then (s, none)   -- both chunks done: idle sleep
    else
      let unprocessedNext := s.nextChunk.filter (fun p => (s.processedImages p).isNone)
      match unprocessedNext with
      | imgPath :: _ =>
        if isNef imgPath || (unprocessedNext.filter (fun p => isNef p)).length = 0 then
          if (s.processedImages imgPath).isNone then
            match decode imgPath with
            | some imgData =>
              ({ s with processedImages := mapInsert s.processedImages imgPath imgData },
               some imgPath)
            | none => (s, some imgPath)
          else (s, none)
        else (s, none)
      | [] => (s, none)

/-- The queue-scan loop of BackgroundProcessor.get_image (lines 136-149):
pop entries until the target is found or the queue is empty.  Returns
(found buffer, the drained non-matching entries in drain order, the
entries left in the queue). -/
def scanQueue (target : String) :
    List (String × Buffer) → Option Buffer × List (String × Buffer) × List (String × Buffer)
  | [] => (none, [], [])
  | (p, img) :: rest =>
    if p = target then (some img, [], rest)
    else
      let r := scanQueue target rest
      (r.1, (p, img) :: r.2.1, r.2.2)

/-- The put-back loop of get_image (lines 151-157): re-enqueue each
drained entry; if the queue is full, store the entry in the in-memory
map instead. -/
def putBack (maxSize : Nat) (init : List (String × Buffer) × ImageMap)
    (temp : List (String × Buffer)) : List (String × Buffer) × ImageMap :=
  temp.foldl (fun qm item =>
    if qm.1.length < maxSize then (qm.1 ++ [item], qm.2)
    else (qm.1, mapInsert qm.2 item.1 item.2)) init

/-- BackgroundProcessor.get_image (lines 116-177).  Returns the
(path, buffer-or-none) result, the new state, and the number of
synchronous decode calls performed (0 or 1). -/
def getImage (decode : String → Option Buffer) (s : BPState) (imagePath : String) :
    (String × Option Buffer) × BPState × Nat :=
  match s.processedImages imagePath with
  | some img => ((imagePath, some img), s, 0)
  | none =>
    let scanned := scanQueue imagePath s.imageQueue
    let found := scanned.1
    -- on a match the scan stores it into the in-memory cache (line 144)
    let m1 : ImageMap := match found with
      | some img => mapInsert s.processedImages imagePath img
      | none => s.processedImages
    let qm := putBack s.maxQueueSize (scanned.2.2, m1) scanned.2.1
    match found with
    | some img => ((imagePath, some img), { s with processedImages := qm.2, imageQueue := qm.1 }, 0)
    | none =>
      -- miss: process it now (blocking), insert only a non-None result
      match decode imagePath with
      | some imgData =>
        ((imagePath, some imgData),
         { s with processedImages := mapInsert qm.2 imagePath imgData, imageQueue := qm.1 }, 1)
      | none =>
        ((imagePath, none), { s with processedImages := qm.2, imageQueue := qm.1 }, 1)

/-- Output (width, height) of resize_image_to_fit
(image_processor.py lines 147-175).  The source compares aspect =
w / h against target_aspect = W / H in float and truncates with int();
this embedding uses the equivalent exact cross-multiplied comparison
and Nat floor division (exact at every input used in the theorems
below, where the float arithmetic is also exact). -/
def resize_image_to_fit_dims (w h maxW maxH : Nat) : Nat × Nat :=
  if maxW * h < w * maxH then
    -- image is wider than target: scale by width
    (maxW, maxW * h / w)
  else
    -- image is taller than target: scale by height
    (maxH * w / h, maxH)

/-- Output (width, height) of canvas.py resize_image (lines 22-54): the
scaled image is pasted centered onto np.zeros((max_height, max_width, 3)),
so the returned canvas always measures exactly max_width x max_height. -/
def canvas_resize_image_dims (w h maxW maxH : Nat) : Nat × Nat :=
  (maxW, maxH)

/-- Content of a source image file as seen by the decoders: whether its
bytes are a well-formed decodable raster image, plus an opaque pixel
payload. -/
structure RasterContent where
  decodable : Bool
  data : Nat
deriving DecidableEq

/-- Abstract filesystem: path to file content (none = unreadable/absent). -/
abbrev FileSys := String → Option RasterContent

/-- Whether every character of the path is ASCII. -/
def pathIsAscii (p : String) : Bool := p.toList.all (fun c => c.toNat < 128)

/-- Modelled from the spec: cv2.imread opens the file by its filesystem
path.  Per the spec's stated rationale in section 4.1 (reading the file
as a raw byte buffer before format-sniffing is what makes paths with
non-ASCII characters never fail to open), the path-based open is
modelled as failing exactly when the path is not pure ASCII; otherwise
it succeeds iff the file exists and its bytes are decodable. -/
def cvImread (fs : FileSys) (p : String) : Option Buffer :=
  if pathIsAscii p then
    match fs p with
    | some c => if c.decodable then some c.data else none
    | none => none
  else none

/-- Modelled from the spec: cv2.imdecode decodes directly from an
already-read byte buffer, so it depends only on the file content, never
on the path spelling. -/
def cvImdecode (c : RasterContent) : Option Buffer :=
  if c.decodable then some c.data else none

/-- The non-RAW branch of process_image (image_processor.py lines
117-125): img = cv2.imread(path); on None the failure marker
(path, None) is returned, else the resized image (the resize step does
not change whether a buffer is returned).  The RAW branch is irrelevant
to the path-encoding claim and is delegated to a rawpy pipeline oracle. -/
def process_image_emb (fs : FileSys) (rawPipeline : String → Option Buffer)
    (path : String) : String × Option Buffer :=
  if isNef path then (path, rawPipeline path)
  else
    match cvImread fs path with
    | none => (path, none)
    | some img => (path, some img)

/-- The non-RAW branch of CorruptDetector.test_image_integrity
(corrupt.py lines 44-62): PIL open/load/verify on the readable file,
then open(path, 'rb') + np.frombuffer + cv2.imdecode; the image is
valid iff the byte buffer decodes.  Any exception (e.g. unreadable
file) yields False. -/
def test_image_integrity_emb (fs : FileSys) (rawIntegrity : String → Bool)
    (path : String) : Bool :=
  if isNef path then rawIntegrity path
  else
    match fs path with
    | none => false
    | some c => (cvImdecode c).isSome

/-- State of ImageViewer (image_viewer.py lines 29-39): the mutable
path list, the cursor current_image_index, and the bounded history
(deque(maxlen=10)), stored oldest first. -/
structure ViewerState where
  paths : List String
  cursor : Nat
  history : List String
deriving DecidableEq

/-- deque(maxlen=10).append: append on the right, silently dropping
from the left so that at most the last 10 entries are kept. -/
def histAppend (h : List String) (x : String) : List String :=
  (h ++ [x]).drop (h.length + 1 - 10)

/-- The skip branch of ImageViewer._process_chunk (lines 198-201): any
other key stores the current path in history and advances the cursor. -/
def handleSkipAction (s : ViewerState) : ViewerState :=
  { s with history := histAppend s.history (s.paths.getD s.cursor "")
           cursor := s.cursor + 1 }

/-- The unreadable-image branch of _process_chunk (lines 172-175):
imageData is None, the cursor advances silently with no history entry. -/
def advanceSilent (s : ViewerState) : ViewerState :=
  { s with cursor := s.cursor + 1 }

/-- ImageViewer._handle_save_action (lines 310-322).  The external
move_image_to_dir_with_date collaborator is passed in as an Except
result; .error means the move raised.  The history append happens
before the move is attempted, and the handler has no exception
handling, so on a raise the exception escapes with the history already
extended: the .error payload is the state at that moment. -/
def handleSaveAction (hasOutputDir : Bool) (s : ViewerState) (imagePath : String)
    (moveResult : Except Unit String) : Except ViewerState ViewerState :=
  let s1 := { s with history := histAppend s.history imagePath }
  if hasOutputDir then
    match moveResult with
    | .error _ => .error s1
    | .ok newPath =>
      .ok { s1 with paths := s1.paths.set s.cursor newPath, cursor := s.cursor + 1 }
  else
    .ok { s1 with cursor := s.cursor + 1 }

/-- ImageViewer._handle_delete_action (lines 324-350).  The Deleted/
destination path (with collision counter) is determined by the external
filesystem and passed in; shutil.move can raise, again after the
history append and before paths[cursor] is overwritten. -/
def handleDeleteAction (s : ViewerState) (imagePath : String)
    (moveResult : Except Unit String) : Except ViewerState ViewerState :=
  let s1 := { s with history := histAppend s.history imagePath }
  match moveResult with
  | .error _ => .error s1
  | .ok newPath =>
    .ok { s1 with paths := s1.paths.set s.cursor newPath, cursor := s.cursor + 1 }

/-- Python list.index(x): index of the first element equal to x, none
when absent (the ValueError case). -/
def listIndex (l : List String) (x : String) : Option Nat :=
  match l with
  | [] => none
  | a :: t => if a = x then some 0 else (listIndex t x).map (fun i => i + 1)

/-- ImageViewer._handle_back_action (lines 281-308): pop the most
recent history entry; look up its first index in paths (list.index);
on success set the cursor there (returning the restart flag when the
index lies in an earlier chunk); on ValueError (path no longer in the
list, i.e. it was moved) just decrement the cursor if positive. -/
def handleBackAction (chunkSize : Nat) (s : ViewerState) : ViewerState × Bool :=
  match s.history.getLast? with
  | none => (s, false)   -- history empty: nothing to undo
  | some prev =>
    let s1 := { s with history := s.history.dropLast }
    match listIndex s.paths prev with
    | some prevIdx =>
      if prevIdx < s.cursor / chunkSize * chunkSize then
        ({ s1 with cursor := prevIdx }, true)
      else
        ({ s1 with cursor := prevIdx }, false)
    | none =>
      if 0 < s.cursor then ({ s1 with cursor := s.cursor - 1 }, false)
      else (s1, false)

/-- n consecutive skip actions. -/
def skipN : Nat → ViewerState → ViewerState
  | 0, s => s
  | n + 1, s => skipN n (handleSkipAction s)

/-- One interactive step of the navigation loop (_process_chunk lines
154-201 dispatching to the handlers above).  Forward actions require
the cursor to be in range, as guaranteed by the loop condition; the
failing-move constructors model the state at the moment the exception
escapes the handler. -/
inductive ViewerStep (chunkSize : Nat) : ViewerState → ViewerState → Prop where
  | skip (s : ViewerState) (h : s.cursor < s.paths.length) :
      ViewerStep chunkSize s (handleSkipAction s)
  | silent (s : ViewerState) (h : s.cursor < s.paths.length) :
      ViewerStep chunkSize s (advanceSilent s)
  | save (hasOutputDir : Bool) (s : ViewerState) (newPath : String) (s' : ViewerState)
      (h : s.cursor < s.paths.length)
      (he : handleSaveAction hasOutputDir s (s.paths.getD s.cursor "")
              (Except.ok newPath) = Except.ok s') :
      ViewerStep chunkSize s s'
  | saveFail (hasOutputDir : Bool) (s : ViewerState) (s' : ViewerState)
      (h : s.cursor < s.paths.length)
      (he : handleSaveAction hasOutputDir s (s.paths.getD s.cursor "")
              (Except.error ()) = Except.error s') :
      ViewerStep chunkSize s s'
  | delete (s : ViewerState) (newPath : String) (s' : ViewerState)
      (h : s.cursor < s.paths.length)
      (he : handleDeleteAction s (s.paths.getD s.cursor "")
              (Except.ok newPath) = Except.ok s') :
      ViewerStep chunkSize s s'
  | deleteFail (s : ViewerState) (s' : ViewerState)
      (h : s.cursor < s.paths.length)
      (he : handleDeleteAction s (s.paths.getD s.cursor "")
              (Except.error ()) = Except.error s') :
      ViewerStep chunkSize s s'
  | back (s : ViewerState) :
      ViewerStep chunkSize s (handleBackAction chunkSize s).1

/-! Helper lemmas. -/

theorem histAppend_length_le (h : List String) (x : String) :
    (histAppend h x).length ≤ 10 := by
  simp [histAppend]
  omega

theorem histAppend_getLast (h : List String) (x : String) :
    (histAppend h x).getLast? = some x := by
  unfold histAppend
  rw [List.drop_append_of_le_length (by omega)]
  exact List.getLast?_concat _

/-- A decode oracle that always fails (failure marker or exception). -/
def decodeNone : String → Option Buffer := fun _ => none

/-- A decode oracle that always succeeds with payload 1. -/
def decodeOne : String → Option Buffer := fun _ => some 1

/-- Worker state: two plain raster paths in the current chunk, nothing
processed yet. -/
def bpFailState : BPState :=
  { currentChunk := ["a.jpg", "b.jpg"], nextChunk := [],
    processedImages := fun _ => none, imageQueue := [], maxQueueSize := 50 }

/-- Worker state: a raster path ahead of a RAW path in the current
chunk, nothing processed yet. -/
def bpStallState : BPState :=
  { currentChunk := ["a.jpg", "b.nef"], nextChunk := [],
    processedImages := fun _ => none, imageQueue := [], maxQueueSize := 50 }

/-- C2: the claim says decode_and_resize returns a buffer of exactly
max_width x max_height with letterboxed borders.  The repository's own
test test_resize_with_black_bars asserts exactly that of
resize_image_to_fit, but resize_image_to_fit only scales to fit: a
600x300 source under bounds (400,400) — the test's first input — comes
back 400x200, not 400x400, so the test fails against the code.  The
superseded canvas.py resize_image does paste onto a
max_width x max_height canvas, matching the claim. -/
theorem resize_image_to_fit_not_letterboxed :
    resize_image_to_fit_dims 600 300 400 400 = (400, 200) ∧
    ((400, 200) : Nat × Nat) ≠ (400, 400) ∧
    canvas_resize_image_dims 600 300 400 400 = (400, 400) := by
  refine ⟨by decide, by decide, rfl⟩

/-- C3: the claim says a failed decode stores a tombstone so the path
is never chosen again.  In background_processor.py the worker stores
nothing when process_image returns the failure marker (or raises): with
both decodes failing, the iteration leaves the state unchanged and the
very next iteration chooses the same path "a.jpg" again — an infinite
retry, and no tombstone ever appears in the map. -/
theorem worker_no_tombstone_retries :
    workerStep decodeNone bpFailState = (bpFailState, some "a.jpg") ∧
    workerStep decodeNone (workerStep decodeNone bpFailState).1
      = (bpFailState, some "a.jpg") ∧
    (workerStep decodeNone bpFailState).1.processedImages "a.jpg" = none := by
  exact ⟨rfl, rfl, rfl⟩

/-- C4: the claim says the worker always decodes some undecoded path of
the selected window, preferring RAW paths.  With current chunk
["a.jpg", "b.nef"] and nothing processed, the head of the unprocessed
list is not RAW while a RAW path remains, so the guard
(head is NEF or no NEF remains) is false: the iteration decodes nothing
and returns the state unchanged — hence every later iteration stalls the
same way, for any decode oracle whatsoever. -/
theorem worker_nef_priority_stall :
    (∀ decode : String → Option Buffer, workerStep decode bpStallState = (bpStallState, none)) ∧
    bpStallState.currentChunk.filter (fun p => (bpStallState.processedImages p).isNone)
      = ["a.jpg", "b.nef"] := by
  exact ⟨fun decode => rfl, rfl⟩

/-- C7 counterexample: the claim says a failed file move leaves the
history unchanged.  With empty history at cursor 0, a save of "a.jpg"
whose move raises escapes with the history already containing "a.jpg":
the history was appended before the move was attempted. -/
theorem save_failure_history_changed :
    handleSaveAction true ⟨["a.jpg", "b.jpg"], 0, []⟩ "a.jpg" (Except.error ())
      = Except.error ⟨["a.jpg", "b.jpg"], 0, ["a.jpg"]⟩ ∧
    (["a.jpg"] : List String) ≠ [] := by
  exact ⟨rfl, by decide⟩

/-- C7 amended: for both keep/save and delete, the handler appends the
acted-on path to history before attempting the move; when the move
raises, the exception escapes with paths and cursor untouched but the
failed action's path recorded as the newest history entry. -/
theorem move_failure_appends_history (s : ViewerState) (p : String) :
    handleSaveAction true s p (Except.error ())
      = Except.error ⟨s.paths, s.cursor, histAppend s.history p⟩ ∧
    handleDeleteAction s p (Except.error ())
      = Except.error ⟨s.paths, s.cursor, histAppend s.history p⟩ ∧
    (histAppend s.history p).getLast? = some p := by
  exact ⟨rfl, rfl, histAppend_getLast s.history p⟩

/-- Filesystem with a decodable raster image at a non-ASCII path. -/
def fsNonAscii : FileSys :=
  fun p => if p = "fötö.jpg" then some ⟨true, 7⟩ else none

/-- RAW pipeline oracle; never consulted for non-RAW paths. -/
def rawNone : String → Option Buffer := fun _ => none

/-- C9 counterexample: the claim says the Decoder reads the file as a
raw byte buffer and format-sniffs, so a readable well-formed image
never fails to decode merely for a non-ASCII path.  In
image_processor.py the non-RAW branch calls cv2.imread(path) directly
(only CorruptDetector.test_image_integrity reads bytes and uses
cv2.imdecode): for a decodable image stored at "fötö.jpg" the embedded
process_image returns the failure marker while the byte-sniffing
integrity test succeeds on the same file. -/
theorem decoder_path_open_nonascii_fails :
    fsNonAscii "fötö.jpg" = some ⟨true, 7⟩ ∧
    isNef "fötö.jpg" = false ∧
    pathIsAscii "fötö.jpg" = false ∧
    (process_image_emb fsNonAscii rawNone "fötö.jpg").2 = none ∧
    test_image_integrity_emb fsNonAscii (fun _ => false) "fötö.jpg" = true := by
  exact ⟨rfl, by decide, by decide, rfl, rfl⟩

/-- C9 amended: only CorruptDetector.test_image_integrity opens the
file as a raw byte buffer and format-sniffs; the Decoder process_image
passes the path to cv2.imread directly in its non-RAW branch, so for a
readable decodable image at a non-ASCII path the decoder fails while
the integrity test succeeds. -/
theorem decoder_vs_integrity_byte_sniff (fs : FileSys)
    (raw : String → Option Buffer) (rawI : String → Bool)
    (p : String) (c : RasterContent)
    (hfile : fs p = some c) (hdec : c.decodable = true)
    (hascii : pathIsAscii p = false) (hnef : isNef p = false) :
    (process_image_emb fs raw p).2 = none ∧
    test_image_integrity_emb fs rawI p = true := by
  constructor
  · simp [process_image_emb, hnef, cvImread, hascii]
  · simp [test_image_integrity_emb, hnef, hfile, cvImdecode, hdec]

/-- Witness for decoder_vs_integrity_byte_sniff at the concrete
filesystem fsNonAscii and path "fötö.jpg". -/
theorem decoder_vs_integrity_byte_sniff_witness :
    fsNonAscii "fötö.jpg" = some ⟨true, 7⟩ ∧
    (⟨true, 7⟩ : RasterContent).decodable = true ∧
    pathIsAscii "fötö.jpg" = false ∧
    isNef "fötö.jpg" = false ∧
    ((process_image_emb fsNonAscii rawNone "fötö.jpg").2 = none ∧
     test_image_integrity_emb fsNonAscii (fun _ => true) "fötö.jpg" = true) :=
  ⟨rfl, rfl, by decide, by decide,
   decoder_vs_integrity_byte_sniff fsNonAscii rawNone (fun _ => true) "fötö.jpg"
     ⟨true, 7⟩ rfl rfl (by decide) (by decide)⟩

/-- C6 counterexample: the claim says "back" sets the cursor to the
slot of the acted-on path p even when p's string was changed by a move.
Reachable scenario: save "a.jpg" at slot 0 (its file moves to
"out/a.jpg", cursor 1), then slot 1 is unreadable and is skipped
silently (cursor 2, no history entry).  Back pops "a.jpg", which is no
longer in the list, so the handler falls into the ValueError branch and
merely decrements the cursor to 1 — but the slot of the action on
"a.jpg" (now holding "out/a.jpg") is 0. -/
theorem back_moved_path_wrong_slot :
    handleSaveAction true ⟨["a.jpg", "b.jpg", "c.jpg"], 0, []⟩ "a.jpg"
        (Except.ok "out/a.jpg")
      = Except.ok ⟨["out/a.jpg", "b.jpg", "c.jpg"], 1, ["a.jpg"]⟩ ∧
    advanceSilent ⟨["out/a.jpg", "b.jpg", "c.jpg"], 1, ["a.jpg"]⟩
      = ⟨["out/a.jpg", "b.jpg", "c.jpg"], 2, ["a.jpg"]⟩ ∧
    handleBackAction 50 ⟨["out/a.jpg", "b.jpg", "c.jpg"], 2, ["a.jpg"]⟩
      = (⟨["out/a.jpg", "b.jpg", "c.jpg"], 1, []⟩, false) ∧
    listIndex ["out/a.jpg", "b.jpg", "c.jpg"] "out/a.jpg" = some 0 ∧
    (1 : Nat) ≠ 0 := by
  exact ⟨rfl, rfl, rfl, rfl, by decide⟩

/-- C5: the claim says a restart filters the in-memory map so that only
entries of the new current window or the new next window survive; after
start(A) then start(B) with the A-exclusive path p outside B and outside
B's next window, p has no entry left, and every surviving entry's path
lies in B or B's next window. -/
theorem start_evicts_stale_entries (s : BPState) (A B : List String)
    (allA allB : Option (List String)) (cszA idxA cszB idxB : Nat) (p : String)
    (hA : p ∈ A) (hnB : p ∉ B) (hnN : p ∉ nextChunkOf allB cszB idxB) :
    (bpStart (bpStart s A allA cszA idxA) B allB cszB idxB).processedImages p = none ∧
    ∀ q, ((bpStart (bpStart s A allA cszA idxA) B allB cszB idxB).processedImages q).isSome →
      q ∈ B ∨ q ∈ nextChunkOf allB cszB idxB := by
  refine ⟨by simp [bpStart, hnB, hnN], ?_⟩
  intro q hq
  by_contra hcon
  push_neg at hcon
  simp [bpStart, hcon.1, hcon.2] at hq

/-- Witness for start_evicts_stale_entries: windows A = ["a.jpg"] and
B = ["b.jpg"] with all_paths ["b.jpg", "c.jpg"], chunk size 1, chunk
index 0, so B's next window is ["c.jpg"] and "a.jpg" is evicted. -/
theorem start_evicts_stale_entries_witness :
    ("a.jpg" ∈ (["a.jpg"] : List String)) ∧
    ("a.jpg" ∉ (["b.jpg"] : List String)) ∧
    ("a.jpg" ∉ nextChunkOf (some ["b.jpg", "c.jpg"]) 1 0) ∧
    (bpStart (bpStart ⟨[], [], fun _ => some 9, [], 50⟩ ["a.jpg"] none 1 0)
        ["b.jpg"] (some ["b.jpg", "c.jpg"]) 1 0).processedImages "a.jpg" = none :=
  ⟨by decide, by decide, by decide,
   (start_evicts_stale_entries ⟨[], [], fun _ => some 9, [], 50⟩ ["a.jpg"] ["b.jpg"]
      none (some ["b.jpg", "c.jpg"]) 1 0 1 0 "a.jpg"
      (by decide) (by decide) (by decide)).1⟩

theorem listIndex_none_of_not_mem (l : List String) (p : String) (h : p ∉ l) :
    listIndex l p = none := by
  induction l with
  | nil => rfl
  | cons a t ih =>
    have ha : ¬(a = p) := fun hap => h (hap ▸ List.mem_cons_self a t)
    simp only [listIndex, ha, if_false]
    rw [ih (fun hm => h (List.mem_cons_of_mem a hm))]
    rfl

theorem listIndex_some_get (l : List String) (p : String) (j : Nat)
    (h : listIndex l p = some j) : l.get? j = some p := by
  induction l generalizing j with
  | nil => simp [listIndex] at h
  | cons a t ih =>
    by_cases ha : a = p
    · simp only [listIndex, ha, if_true, Option.some.injEq] at h
      simp [← h, ha]
    · simp only [listIndex, ha, if_false, Option.map_eq_some'] at h
      obtain ⟨i, hi, rfl⟩ := h
      simpa using ih i hi

/-- C6 amended: "back" with empty history is a no-op; otherwise it pops
the most recent path p from history and leaves the path list untouched;
when p is still present in the list the cursor becomes the first index
holding p (the slot of p's action under distinct paths); when p's path
string was changed by a keep/delete move (p no longer in the list) the
cursor is merely decremented by one, which is the slot of p's action
only if no silent skip of an unreadable image intervened since. -/
theorem handleBack_amended (chunkSize : Nat) (s : ViewerState) :
    (s.history = [] → handleBackAction chunkSize s = (s, false)) ∧
    ∀ p, s.history.getLast? = some p →
      (handleBackAction chunkSize s).1.history = s.history.dropLast ∧
      (handleBackAction chunkSize s).1.paths = s.paths ∧
      (∀ j, listIndex s.paths p = some j →
        (handleBackAction chunkSize s).1.cursor = j ∧ s.paths.get? j = some p) ∧
      (p ∉ s.paths → (handleBackAction chunkSize s).1.cursor = s.cursor - 1) := by
  constructor
  · intro hemp
    simp [handleBackAction, hemp]
  · intro p hlast
    cases hidx : listIndex s.paths p with
    | some j =>
      refine ⟨?_, ?_, ?_, ?_⟩
      · simp only [handleBackAction, hlast, hidx]
        split <;> rfl
      · simp only [handleBackAction, hlast, hidx]
        split <;> rfl
      · intro j' hj'
        cases hj'
        constructor
        · simp only [handleBackAction, hlast, hidx]
          split <;> rfl
        · exact listIndex_some_get s.paths p j hidx
      · intro hnm
        rw [listIndex_none_of_not_mem s.paths p hnm] at hidx
        cases hidx
    | none =>
      refine ⟨?_, ?_, ?_, ?_⟩
      · simp only [handleBackAction, hlast, hidx]
        split <;> rfl
      · simp only [handleBackAction, hlast, hidx]
        split <;> rfl
      · intro j' hj'
        exact Option.noConfusion hj'
      · intro _
        simp only [handleBackAction, hlast, hidx]
        split
        · rfl
        · next hc => simp only [Nat.not_lt, Nat.le_zero] at hc; simp [hc]

/-- Witness for handleBack_amended: history ["x.jpg"], cursor 1;
back pops "x.jpg", which sits at index 0 of the path list, so the
cursor becomes 0 and the history empties. -/
theorem handleBack_amended_witness :
    ((["x.jpg"] : List String).getLast? = some "x.jpg") ∧
    (listIndex ["x.jpg", "y.jpg"] "x.jpg" = some 0) ∧
    (handleBackAction 50 ⟨["x.jpg", "y.jpg"], 1, ["x.jpg"]⟩).1.history = [] ∧
    (handleBackAction 50 ⟨["x.jpg", "y.jpg"], 1, ["x.jpg"]⟩).1.cursor = 0 :=
  have T := (handleBack_amended 50 ⟨["x.jpg", "y.jpg"], 1, ["x.jpg"]⟩).2 "x.jpg" rfl
  ⟨rfl, rfl, T.1, (T.2.2.1 0 rfl).1⟩

theorem scanQueue_temp_keys (target : String) (l : List (String × Buffer)) :
    ∀ e ∈ (scanQueue target l).2.1, e.1 ≠ target := by
  induction l with
  | nil => intro e he; simp [scanQueue] at he
  | cons hd rest ih =>
    obtain ⟨p, img⟩ := hd
    intro e he
    by_cases hp : p = target
    · simp [scanQueue, hp] at he
    · simp only [scanQueue, hp, if_false, List.mem_cons] at he
      rcases he with rfl | he
      · exact hp
      · exact ih e he

theorem scanQueue_split (target : String) (l : List (String × Buffer)) :
    ((scanQueue target l).1 = none ∧ (scanQueue target l).2.1 = l ∧
      (scanQueue target l).2.2 = []) ∨
    (∃ b, (scanQueue target l).1 = some b ∧
      l = (scanQueue target l).2.1 ++ (target, b) :: (scanQueue target l).2.2) := by
  induction l with
  | nil => exact Or.inl ⟨rfl, rfl, rfl⟩
  | cons hd rest ih =>
    obtain ⟨p, img⟩ := hd
    by_cases hp : p = target
    · subst hp
      refine Or.inr ⟨img, ?_, ?_⟩
      · simp [scanQueue]
      · simp [scanQueue]
    · rcases ih with ⟨h1, h2, h3⟩ | ⟨b, h1, h2⟩
      · refine Or.inl ⟨?_, ?_, ?_⟩
        · simp only [scanQueue, hp, if_false]; exact h1
        · simp only [scanQueue, hp, if_false]; rw [h2]
        · simp only [scanQueue, hp, if_false]; exact h3
      · refine Or.inr ⟨b, ?_, ?_⟩
        · simp only [scanQueue, hp, if_false]; exact h1
        · simp only [scanQueue, hp, if_false, List.cons_append, List.cons.injEq]
          exact ⟨trivial, h2⟩

theorem putBack_eq_append (maxSize : Nat) (m : ImageMap) (q temp : List (String × Buffer))
    (h : q.length + temp.length ≤ maxSize) :
    putBack maxSize (q, m) temp = (q ++ temp, m) := by
  induction temp generalizing q with
  | nil => simp [putBack]
  | cons x t ih =>
    have hlt : q.length < maxSize := by
      simp only [List.length_cons] at h; omega
    simp only [putBack, List.foldl_cons, hlt, if_true]
    have := ih (q ++ [x]) (by simp only [List.length_append, List.length_cons,
      List.length_nil, List.length_cons] at h ⊢; omega)
    simp only [putBack] at this
    rw [this]
    simp

theorem putBack_map_preserved (maxSize : Nat) (q : List (String × Buffer)) (m : ImageMap)
    (temp : List (String × Buffer)) (k : String) (h : ∀ e ∈ temp, e.1 ≠ k) :
    (putBack maxSize (q, m) temp).2 k = m k := by
  induction temp generalizing q m with
  | nil => rfl
  | cons x t ih =>
    have hx : x.1 ≠ k := h x (List.mem_cons_self x t)
    have ht : ∀ e ∈ t, e.1 ≠ k := fun e he => h e (List.mem_cons_of_mem x he)
    have hstep : putBack maxSize (q, m) (x :: t)
        = putBack maxSize
            (if q.length < maxSize then (q ++ [x], m) else (q, mapInsert m x.1 x.2)) t := rfl
    rw [hstep]
    by_cases hlt : q.length < maxSize
    · rw [if_pos hlt]
      exact ih (q ++ [x]) m ht
    · rw [if_neg hlt, ih q (mapInsert m x.1 x.2) ht]
      simp only [mapInsert]
      exact Function.update_noteq (fun hk => hx hk.symm) _ m

/-- C1: for a path with no in-memory entry whose source decodes to b,
get_image returns a non-None buffer and records it in the in-memory
map before returning, and a second get_image on the resulting state is
a pure in-memory hit: it performs zero decodes, changes nothing, and
returns the cached buffer; moreover when the ready queue holds no entry
for the path, the first call decodes synchronously (exactly one decode)
and returns exactly the decoded buffer b. -/
theorem getImage_cache_correct (decode : String → Option Buffer) (s : BPState)
    (path : String) (b : Buffer)
    (hdec : decode path = some b) (hmiss : s.processedImages path = none) :
    (getImage decode s path).1.1 = path ∧
    (getImage decode s path).1.2.isSome = true ∧
    (getImage decode s path).2.1.processedImages path = (getImage decode s path).1.2 ∧
    getImage decode (getImage decode s path).2.1 path
      = ((path, (getImage decode s path).1.2), (getImage decode s path).2.1, 0) ∧
    ((∀ e ∈ s.imageQueue, e.1 ≠ path) →
      (getImage decode s path).1.2 = some b ∧ (getImage decode s path).2.2 = 1) := by
  have hkeys := scanQueue_temp_keys path s.imageQueue
  cases hfound : (scanQueue path s.imageQueue).1 with
  | some img =>
    have hmap : (putBack s.maxQueueSize ((scanQueue path s.imageQueue).2.2,
        mapInsert s.processedImages path img) ((scanQueue path s.imageQueue).2.1)).2 path
        = some img := by
      rw [putBack_map_preserved _ _ _ _ _ hkeys]
      simp only [mapInsert, Function.update_same]
    refine ⟨?_, ?_, ?_, ?_, ?_⟩
    · simp only [getImage, hmiss, hfound]
    · simp only [getImage, hmiss, hfound, Option.isSome_some]
    · simp only [getImage, hmiss, hfound]
      exact hmap
    · simp only [getImage, hmiss, hfound]
      simp only [getImage, hmap]
    · intro hq
      exfalso
      rcases scanQueue_split path s.imageQueue with ⟨h1, _, _⟩ | ⟨b', _, h2⟩
      · rw [hfound] at h1; cases h1
      · exact hq (path, b') (h2 ▸ List.mem_append_right _ (List.mem_cons_self _ _)) rfl
  | none =>
    have hmap : (mapInsert (putBack s.maxQueueSize ((scanQueue path s.imageQueue).2.2,
        s.processedImages) ((scanQueue path s.imageQueue).2.1)).2 path b) path = some b := by
      simp only [mapInsert, Function.update_same]
    refine ⟨?_, ?_, ?_, ?_, ?_⟩
    · simp only [getImage, hmiss, hfound, hdec]
    · simp only [getImage, hmiss, hfound, hdec, Option.isSome_some]
    · simp only [getImage, hmiss, hfound, hdec]
      exact hmap
    · simp only [getImage, hmiss, hfound, hdec]
      simp only [getImage, hmap]
    · intro _
      refine ⟨?_, ?_⟩ <;> simp only [getImage, hmiss, hfound, hdec]

/-- Concrete state for the get_image witnesses: empty cache, one
unrelated preloaded queue entry. -/
def bpWitnessState : BPState :=
  { currentChunk := ["w.jpg"], nextChunk := [],
    processedImages := fun _ => none,
    imageQueue := [("other.jpg", 3)], maxQueueSize := 50 }

/-- Decode oracle for the witnesses. -/
def decodeW : String → Option Buffer :=
  fun p => if p = "w.jpg" then some 5 else none

/-- Witness for getImage_cache_correct at bpWitnessState and "w.jpg". -/
theorem getImage_cache_correct_witness :
    decodeW "w.jpg" = some 5 ∧
    bpWitnessState.processedImages "w.jpg" = none ∧
    ((getImage decodeW bpWitnessState "w.jpg").1.1 = "w.jpg" ∧
     (getImage decodeW bpWitnessState "w.jpg").1.2.isSome = true ∧
     getImage decodeW (getImage decodeW bpWitnessState "w.jpg").2.1 "w.jpg"
       = (("w.jpg", (getImage decodeW bpWitnessState "w.jpg").1.2),
          (getImage decodeW bpWitnessState "w.jpg").2.1, 0)) :=
  have T := getImage_cache_correct decodeW bpWitnessState "w.jpg" 5 rfl rfl
  ⟨rfl, rfl, T.1, T.2.1, T.2.2.2.1⟩

/-- C10: the queue-scan phase of get_image conserves decoded buffers:
every entry of the queue before a lookup is, afterwards, either still
in the queue (drained non-matches are put back, undrained entries stay)
or recorded in the in-memory map (the matching entry, and any put-back
overflow), for any queue within its size bound. -/
theorem getImage_queue_conservation (decode : String → Option Buffer) (s : BPState)
    (path : String) (hlen : s.imageQueue.length ≤ s.maxQueueSize)
    (q : String) (b : Buffer) (hmem : (q, b) ∈ s.imageQueue) :
    (q, b) ∈ (getImage decode s path).2.1.imageQueue ∨
      (getImage decode s path).2.1.processedImages q = some b := by
  cases hhit : s.processedImages path with
  | some img =>
    left
    simp only [getImage, hhit]
    exact hmem
  | none =>
    rcases scanQueue_split path s.imageQueue with ⟨h1, h2, h3⟩ | ⟨bf, h1, h2⟩
    · -- nothing matched: everything drained is put back
      have hpb : putBack s.maxQueueSize
          ((scanQueue path s.imageQueue).2.2, s.processedImages)
          ((scanQueue path s.imageQueue).2.1) = (s.imageQueue, s.processedImages) := by
        rw [h2, h3]
        simpa using putBack_eq_append s.maxQueueSize s.processedImages [] s.imageQueue
          (by simpa using hlen)
      left
      cases hdec : decode path <;>
        · simp only [getImage, hhit, h1, hdec, hpb]
          exact hmem
    · -- a match was found and stored into the map; the rest is put back
      have hlen2 : (scanQueue path s.imageQueue).2.2.length
          + (scanQueue path s.imageQueue).2.1.length ≤ s.maxQueueSize := by
        have hl := congrArg List.length h2
        simp only [List.length_append, List.length_cons] at hl
        omega
      have hpb := putBack_eq_append s.maxQueueSize
        (mapInsert s.processedImages path bf)
        ((scanQueue path s.imageQueue).2.2) ((scanQueue path s.imageQueue).2.1) hlen2
      rw [h2] at hmem
      rcases List.mem_append.mp hmem with hmt | hmr
      · left
        simp only [getImage, hhit, h1, hpb]
        exact List.mem_append_right _ hmt
      · rcases List.mem_cons.mp hmr with heq | hmr'
        · right
          injection heq with heq1 heq2
          subst heq1
          subst heq2
          simp only [getImage, hhit, h1, hpb]
          simp only [mapInsert, Function.update_same]
        · left
          simp only [getImage, hhit, h1, hpb]
          exact List.mem_append_left _ hmr'

/-- Witness for getImage_queue_conservation: a lookup of "w.jpg" leaves
the unrelated preloaded entry ("other.jpg", 3) available. -/
theorem getImage_queue_conservation_witness :
    bpWitnessState.imageQueue.length ≤ bpWitnessState.maxQueueSize ∧
    ("other.jpg", 3) ∈ bpWitnessState.imageQueue ∧
    (("other.jpg", 3) ∈ (getImage decodeW bpWitnessState "w.jpg").2.1.imageQueue ∨
     (getImage decodeW bpWitnessState "w.jpg").2.1.processedImages "other.jpg" = some 3) :=
  ⟨by decide, by decide,
   getImage_queue_conservation decodeW bpWitnessState "w.jpg" (by decide)
     "other.jpg" 3 (by decide)⟩

/-- Keep the last ten entries (deque(maxlen=10) contents). -/
def takeLast10 (l : List String) : List String := l.drop (l.length - 10)

theorem histAppend_eq_takeLast10 (h : List String) (x : String) :
    histAppend h x = takeLast10 (h ++ [x]) := by
  simp [histAppend, takeLast10]

theorem takeLast10_append_left (l m : List String) :
    takeLast10 (takeLast10 l ++ m) = takeLast10 (l ++ m) := by
  unfold takeLast10
  rw [← List.drop_append_of_le_length (Nat.sub_le l.length 10), List.drop_drop]
  congr 1
  simp only [List.length_drop, List.length_append]
  omega

theorem foldl_histAppend_eq (xs : List String) (h : List String) (hh : h.length ≤ 10) :
    xs.foldl histAppend h = takeLast10 (h ++ xs) := by
  induction xs generalizing h with
  | nil =>
    simp only [List.foldl_nil, List.append_nil, takeLast10]
    rw [Nat.sub_eq_zero_of_le hh, List.drop_zero]
  | cons x t ih =>
    simp only [List.foldl_cons]
    rw [ih (histAppend h x) (histAppend_length_le h x), histAppend_eq_takeLast10,
      takeLast10_append_left, List.append_assoc, List.singleton_append]

theorem skipN_spec (n : Nat) (s : ViewerState) (hb : s.cursor + n ≤ s.paths.length) :
    skipN n s = ⟨s.paths, s.cursor + n,
      ((s.paths.drop s.cursor).take n).foldl histAppend s.history⟩ := by
  induction n generalizing s with
  | zero => simp [skipN]
  | succ n ih =>
    have hc : s.cursor < s.paths.length := by omega
    show skipN n (handleSkipAction s) = _
    rw [show handleSkipAction s = ⟨s.paths, s.cursor + 1,
          histAppend s.history (s.paths.getD s.cursor "")⟩ from rfl,
        ih _ (by simp; omega)]
    simp only [ViewerState.mk.injEq]
    refine ⟨trivial, by omega, ?_⟩
    rw [List.drop_eq_getElem_cons hc, List.take_succ_cons, List.foldl_cons,
      List.getD_eq_getElem s.paths "" hc]

theorem viewerStep_history_le {chunkSize : Nat} {s t : ViewerState}
    (hst : ViewerStep chunkSize s t) (hs : s.history.length ≤ 10) :
    t.history.length ≤ 10 := by
  cases hst with
  | skip s h =>
    simpa [handleSkipAction] using histAppend_length_le s.history _
  | silent s h => simpa [advanceSilent] using hs
  | save hod s np s' h he =>
    cases hod <;> simp only [handleSaveAction, if_true, if_false,
      Bool.false_eq_true, Except.ok.injEq] at he <;>
      · subst he
        simpa using histAppend_length_le s.history _
  | saveFail hod s s' h he =>
    cases hod <;> simp only [handleSaveAction, if_true, if_false,
      Bool.false_eq_true, Except.error.injEq, reduceCtorEq] at he
    subst he
    simpa using histAppend_length_le s.history _
  | delete s np s' h he =>
    simp only [handleDeleteAction, Except.ok.injEq] at he
    subst he
    simpa using histAppend_length_le s.history _
  | deleteFail s s' h he =>
    simp only [handleDeleteAction, Except.error.injEq] at he
    subst he
    simpa using histAppend_length_le s.history _
  | back s =>
    cases hlast : s.history.getLast? with
    | none => simpa [handleBackAction, hlast] using hs
    | some p =>
      have hd : s.history.dropLast.length ≤ 10 := by
        simp only [List.length_dropLast]; omega
      cases hidx : listIndex s.paths p with
      | some j =>
        simp only [handleBackAction, hlast, hidx]
        split <;> simpa using hd
      | none =>
        simp only [handleBackAction, hlast, hidx]
        split <;> simpa using hd

/-- C8: after more than 10 consecutive skip actions the history holds
exactly the 10 most recently skipped paths in order, oldest first
(length exactly 10); and under any sequence of navigation steps of any
kind the history length never exceeds 10. -/
theorem history_bound_ring_buffer (s : ViewerState) (n : Nat)
    (hh : s.history.length ≤ 10) (hn : 10 < n) (hb : s.cursor + n ≤ s.paths.length) :
    ((skipN n s).history = (s.paths.drop (s.cursor + n - 10)).take 10 ∧
     (skipN n s).history.length = 10) ∧
    ∀ (chunkSize : Nat) (s0 s1 : ViewerState),
      Relation.ReflTransGen (ViewerStep chunkSize) s0 s1 →
      s0.history.length ≤ 10 → s1.history.length ≤ 10 := by
  constructor
  · have heq : (skipN n s).history = (s.paths.drop (s.cursor + n - 10)).take 10 := by
      rw [skipN_spec n s hb]
      show ((s.paths.drop s.cursor).take n).foldl histAppend s.history = _
      rw [foldl_histAppend_eq _ _ hh]
      unfold takeLast10
      have hslice : ((s.paths.drop s.cursor).take n).length = n := by
        simp only [List.length_take, List.length_drop]
        omega
      rw [List.length_append, hslice,
        show s.history.length + n - 10 = s.history.length + (n - 10) from by omega,
        List.drop_append, List.drop_take, List.drop_drop,
        show n - (n - 10) = 10 from by omega,
        show s.cursor + (n - 10) = s.cursor + n - 10 from by omega]
    refine ⟨heq, ?_⟩
    rw [heq]
    simp only [List.length_take, List.length_drop]
    omega
  · intro chunkSize s0 s1 hrel h0
    induction hrel with
    | refl => exact h0
    | tail hab hbc ih => exact viewerStep_history_le hbc ih

/-- Twelve-path starting state for the history-bound witness. -/
def viewerWitnessState : ViewerState :=
  ⟨["p0.jpg", "p1.jpg", "p2.jpg", "p3.jpg", "p4.jpg", "p5.jpg", "p6.jpg",
    "p7.jpg", "p8.jpg", "p9.jpg", "p10.jpg", "p11.jpg"], 0, []⟩

/-- Witness for history_bound_ring_buffer: 11 skips over 12 paths leave
exactly the last 10 skipped paths in history. -/
theorem history_bound_ring_buffer_witness :
    viewerWitnessState.history.length ≤ 10 ∧ 10 < 11 ∧
    viewerWitnessState.cursor + 11 ≤ viewerWitnessState.paths.length ∧
    ((skipN 11 viewerWitnessState).history
        = (viewerWitnessState.paths.drop (viewerWitnessState.cursor + 11 - 10)).take 10 ∧
     (skipN 11 viewerWitnessState).history.length = 10) :=
  ⟨by decide, by decide, by decide,
   (history_bound_ring_buffer viewerWitnessState 11 (by decide) (by decide) (by decide)).1⟩
